import Mathlib

/-!
Verification development for the goemon file-watching task runner
(`goemon.go`).  The Go source is shallowly embedded: pure functions become
Lean functions over `List Char` (Go strings are processed rune-by-rune by
the source), fallible code returns `Except`/`Option`, and the concurrent
dispatcher/supervisor becomes an explicit labelled transition system.
The embedding is for the non-Windows build (`runtime.GOOS != "windows"`):
the path separator is `/` and `filepath.ToSlash` is the identity.
-/

/-! ## Path utilities (models of the `path/filepath` collaborators) -/

/-- Split a character list on a separator character.  Models Go's
`strings.Split(s, sep)` for a one-character separator: the result is never
empty and concatenating it with the separator restores the input. -/
def splitOnChar (sep : Char) : List Char → List (List Char)
  | [] => [[]]
  | c :: rest =>
    if c = sep then [] :: splitOnChar sep rest
    else
      match splitOnChar sep rest with
      | r :: rs => (c :: r) :: rs
      | [] => [[c]]

/-- Join segments with a separator character (inverse of `splitOnChar`). -/
def joinWithChar (sep : Char) : List (List Char) → List Char
  | [] => []
  | [s] => s
  | s :: rest => s ++ sep :: joinWithChar sep rest

/-- Modelled from the `path/filepath` library: the segment-stack phase of
`filepath.Clean`.  Processes the segments left to right: empty and `.`
segments are dropped; `..` pops the previous segment when one is available
and it is not itself a `..`; otherwise `..` is dropped when the path is
rooted and kept when it is relative. -/
def cleanSegs (rooted : Bool) : List (List Char) → List (List Char) → List (List Char)
  | st, [] => st
  | st, s :: rest =>
    if s = [] ∨ s = ['.'] then cleanSegs rooted st rest
    else if s = ['.', '.'] then
      if st ≠ [] ∧ st.getLast? ≠ some ['.', '.'] then cleanSegs rooted st.dropLast rest
      else if rooted then cleanSegs rooted st rest
      else cleanSegs rooted (st ++ [s]) rest
    else cleanSegs rooted (st ++ [s]) rest

/-- Modelled from the `path/filepath` library: `filepath.Clean` for the
slash-separated convention. -/
def pathClean (p : List Char) : List Char :=
  let rooted := p.head? = some '/'
  let segs := cleanSegs rooted [] (splitOnChar '/' p)
  let body := joinWithChar '/' segs
  if rooted then '/' :: body
  else if body = [] then ['.'] else body

/-- Modelled from the `path/filepath` library: `filepath.Abs` on a
non-Windows host, with the working directory passed explicitly.  An
absolute path is cleaned; a relative path is joined onto the working
directory (`filepath.Join` also cleans). -/
def filepathAbs (cwd p : List Char) : List Char :=
  if p.head? = some '/' then pathClean p
  else pathClean (cwd ++ '/' :: p)

/-- Modelled from the `path/filepath` library: `filepath.Dir`, for the
rooted paths produced by the directory walk (everything up to the final
separator, cleaned). -/
def dirOf (p : List Char) : List Char :=
  let pre := (p.reverse.dropWhile (fun c => c ≠ '/')).reverse
  if pre = [] then ['.'] else pathClean pre

/-! ## The regular-expression fragment emitted by `compilePattern`

`compilePattern` hands a generated source string to `regexp.Compile`; the
matcher itself lives in Go's regexp library.  We model that collaborator
by a parser for the fragment the generator emits (`^`, `$`, top-level
`|`, `[\xHH]` literal classes, `[^/]+`, `\S`, `.*`, `.`, plain literal
characters) together with RE2's unanchored leftmost-match semantics,
restricted to that fragment; anything outside the fragment is a parse
error. -/

/-- One matching token of the emitted regex fragment. -/
inductive Tok where
  | lit (c : Char)
  | dotStar
  | nonSepPlus
  | nonSpace
  | anyChar
  deriving Repr, DecidableEq

/-- One `|`-alternative of a compiled regex: optional start anchor, a
token list, optional end anchor. -/
structure RAlt where
  anchorS : Bool
  toks : List Tok
  anchorE : Bool
  deriving Repr, DecidableEq

/-- A compiled matcher: the list of top-level alternatives. -/
abbrev Regex := List RAlt

/-- RE2's `\s` (whitespace) character set. -/
def isSpaceRE2 (c : Char) : Bool :=
  c = ' ' ∨ c = '\t' ∨ c = '\n' ∨ c = '\x0c' ∨ c = '\r'

/-- Hex digit value, `none` for a non-hex-digit. -/
def hexVal (c : Char) : Option Nat :=
  if '0' ≤ c ∧ c ≤ '9' then some (c.toNat - '0'.toNat)
  else if 'a' ≤ c ∧ c ≤ 'f' then some (c.toNat - 'a'.toNat + 10)
  else if 'A' ≤ c ∧ c ≤ 'F' then some (c.toNat - 'A'.toNat + 10)
  else none

mutual

/-- Parse the token body of one alternative of the emitted fragment. -/
def parseToks : List Char → Option (List Tok)
  | [] => some []
  | '[' :: '^' :: '/' :: ']' :: '+' :: rest =>
    (parseToks rest).map (Tok.nonSepPlus :: ·)
  | '[' :: '\\' :: 'x' :: rest => parseHex 0 false rest
  | '\\' :: 'S' :: rest => (parseToks rest).map (Tok.nonSpace :: ·)
  | '.' :: '*' :: rest => (parseToks rest).map (Tok.dotStar :: ·)
  | '.' :: rest => (parseToks rest).map (Tok.anyChar :: ·)
  | '/' :: rest => (parseToks rest).map (Tok.lit '/' :: ·)
  | c :: rest =>
    if c.isAlphanum then (parseToks rest).map (Tok.lit c :: ·) else none

/-- Parse the hex digits of a `[\xHH]` literal class, then the class
closer, then the remaining tokens. -/
def parseHex (acc : Nat) (seen : Bool) : List Char → Option (List Tok)
  | ']' :: rest =>
    if seen then (parseToks rest).map (Tok.lit (Char.ofNat acc) :: ·) else none
  | c :: rest =>
    match hexVal c with
    | some v => parseHex (16 * acc + v) true rest
    | none => none
  | [] => none

end

/-- Parse one `|`-alternative: strip a leading `^` and trailing `$`s,
then parse the token body (a `^` or `$` elsewhere is outside the
fragment and fails inside `parseToks`). -/
def parseAlt (cs : List Char) : Option RAlt :=
  let (aS, cs) := match cs with
    | '^' :: r => (true, r)
    | _ => (false, cs)
  let nd := (cs.reverse.takeWhile (· = '$')).length
  let core := cs.take (cs.length - nd)
  (parseToks core).map fun ts => ⟨aS, ts, 0 < nd⟩

/-- Modelled from the `regexp` library: `regexp.Compile`, restricted to
the fragment emitted by `compilePattern` (plus the literal characters a
raw pattern may use). -/
def regexpCompile (cs : List Char) : Except String Regex :=
  match (splitOnChar '|' cs).mapM parseAlt with
  | some r => Except.ok r
  | none => Except.error "regexp parse error"

/-- Can the token list match the empty string?  Only `.*` tokens are
erasable. -/
def nullableToks : List Tok → Bool
  | [] => true
  | .dotStar :: ts => nullableToks ts
  | _ => false

/-- Brzozowski derivative of a token list by one character: the token
lists that must match the remainder.  `.*` either absorbs the character
or is erased; `[^/]+` absorbs a non-separator and either ends or
continues; the single-character tokens consume exactly the character
they accept. -/
def derivToks : List Tok → Char → List (List Tok)
  | [], _ => []
  | .lit d :: ts, c => if c = d then [ts] else []
  | .nonSpace :: ts, c => if isSpaceRE2 c then [] else [ts]
  | .anyChar :: ts, c => if c = '\n' then [] else [ts]
  | .nonSepPlus :: ts, c => if c = '/' then [] else [ts, Tok.nonSepPlus :: ts]
  | .dotStar :: ts, c => (Tok.dotStar :: ts) :: derivToks ts c

/-- Does the token list match the character list exactly (both consumed
entirely)?  `.*` matches zero or more arbitrary characters; `[^/]+`
matches one or more non-separator characters; matching proceeds by
character-wise derivatives. -/
def toksMatch : List Tok → List Char → Bool
  | toks, [] => nullableToks toks
  | toks, c :: cs => (derivToks toks c).any (toksMatch · cs)

/-- One alternative, with RE2's unanchored search semantics: anchors
restrict which substrings of the candidate are tried. -/
def altMatch (a : RAlt) (cs : List Char) : Bool :=
  match a.anchorS, a.anchorE with
  | true, true => toksMatch a.toks cs
  | true, false => (cs.inits).any (toksMatch a.toks)
  | false, true => (cs.tails).any (toksMatch a.toks)
  | false, false => (cs.tails).any fun t => (t.inits).any (toksMatch a.toks)

/-- Modelled from the `regexp` library: `Regexp.MatchString` — does some
alternative match somewhere in the candidate? -/
def rxMatch (r : Regex) (cs : List Char) : Bool :=
  r.any (altMatch · cs)

/-! ## `compilePattern` (goemon.go lines 81-127) -/

/-- Modelled from the `fmt` library: `fmt.Sprintf("%x", n)` for a rune
value `n` — lowercase hex digits, no leading zeros, `"0"` for zero. -/
def toHex (n : Nat) : List Char :=
  Nat.toDigits 16 n

/-- The inner rune loop of `compilePattern` (lines 98-122), for the
non-Windows build: translates one already-resolved alternative into
regex text.  `/` is copied; `**/` becomes `.*`; a single `*` becomes
`[^/]+`; a `**` not followed by `/` is the "invalid wildcard" error;
`?` becomes `\S`; any other rune becomes a `[\xHH]` literal class. -/
def globBody : List Char → Except String (List Char)
  | [] => Except.ok []
  | c :: rest =>
    if c = '/' then (globBody rest).map (fun r => '/' :: r)
    else if c = '*' then
      match rest with
      | '*' :: rest2 =>
        match rest2 with
        | '/' :: rest3 => (globBody rest3).map (fun r => '.' :: '*' :: r)
        | _ => Except.error "invalid wildcard"
      | r => (globBody r).map (fun r2 => '[' :: '^' :: '/' :: ']' :: '+' :: r2)
    else if c = '?' then (globBody rest).map (fun r => '\\' :: 'S' :: r)
    else (globBody rest).map (fun r => '[' :: '\\' :: 'x' :: toHex c.toNat ++ ']' :: r)

/-- The alternatives loop of `compilePattern` (lines 88-124): the first
alternative is prefixed with `^`, every later one with `$|`; each
alternative is resolved with `filepath.Abs` (then `filepath.ToSlash`,
the identity on non-Windows), translated by the rune loop, and suffixed
with `$`.  The first "invalid wildcard" error aborts the build. -/
def buildAlts (cwd : List Char) : Nat → List (List Char) → Except String (List Char)
  | _, [] => Except.ok []
  | n, pat :: rest => do
    let pfx : List Char := if n = 0 then ['^'] else ['$', '|']
    let body ← globBody (filepathAbs cwd pat)
    let tail ← buildAlts cwd (n + 1) rest
    Except.ok (pfx ++ body ++ '$' :: tail)

/-- `compilePattern` (lines 81-127).  The result is `none` when the
function would panic: `pattern[0]` is an out-of-bounds read on the empty
string.  A pattern starting with `%` hands the remainder straight to
`regexp.Compile`; otherwise the pattern is split on `|`, each alternative
resolved and translated, and the generated source compiled. -/
def compilePattern (cwd pattern : List Char) : Option (Except String Regex) :=
  match pattern with
  | [] => none
  | c :: rest =>
    if c = '%' then some (regexpCompile rest)
    else
      some (match buildAlts cwd 0 (splitOnChar '|' (c :: rest)) with
            | Except.ok src => regexpCompile src
            | Except.error e => Except.error e)

/-- Did `compilePattern` return a matcher? -/
def isOkO : Option (Except String Regex) → Bool
  | some (Except.ok _) => true
  | _ => false

/-- Did `compilePattern` return a compile error (as opposed to a matcher
or a panic)? -/
def isErrO : Option (Except String Regex) → Bool
  | some (Except.error _) => true
  | _ => false

/-- Does the pattern compile to a matcher that accepts the path?
Convenience composition of `compilePattern` and `MatchString`. -/
def acceptsVia (cwd pat path : List Char) : Bool :=
  match compilePattern cwd pat with
  | some (Except.ok r) => rxMatch r path
  | _ => false

/-- Does the character list contain a `**` whose follower is missing or
is not `/`?  (The shape the spec calls a malformed wildcard.) -/
def hasBadSS : List Char → Bool
  | c1 :: c2 :: rest =>
    (c1 = '*' && c2 = '*' && rest.head? ≠ some '/') || hasBadSS (c2 :: rest)
  | _ => false

/-! ## Rules (`task` struct), matching and configuration load -/

/-- The fsnotify operation bits (collaborator constants): Create, Write,
Remove, Rename, Chmod. -/
def fsCreate : Nat := 1

/-- fsnotify Write bit. -/
def fsWrite : Nat := 2

/-- fsnotify Remove bit. -/
def fsRemove : Nat := 4

/-- fsnotify Rename bit. -/
def fsRename : Nat := 8

/-- fsnotify Chmod bit. -/
def fsChmod : Nat := 16

/-- The `task` struct of goemon.go (lines 43-53), restricted to the
fields the pattern/matching layer reads: the raw sources, the compiled
matchers (`nil` = `none`) and the operation mask.  (`hit` and the mutex
live in the transition system below.) -/
structure GTask where
  matchSrc : List Char
  ignoreSrc : List Char
  mre : Option Regex
  ire : Option Regex
  mops : Nat
  deriving Repr, DecidableEq

/-- `(*task).match` (lines 137-139): the match matcher is non-nil and
accepts the file, and the ignore matcher is nil or rejects it. -/
def taskMatchF (t : GTask) (file : List Char) : Bool :=
  (match t.mre with
   | some r => rxMatch r file
   | none => false) &&
  (match t.ire with
   | some r => !(rxMatch r file)
   | none => true)

/-- `(*task).matchOp` (lines 141-146): an empty mask matches every
operation; otherwise the event's operation bits must all lie inside the
mask (`uint32(op)&t.mops == uint32(op)`). -/
def matchOp (mops op : Nat) : Bool :=
  if mops = 0 then true else (op &&& mops) = op

/-- The pattern-compilation part of `(*Goemon).load` for one task entry
(lines 281-297): an empty match source skips the entry (both matchers
stay nil); a match-compile error logs and skips the rest of the entry; a
non-empty ignore source is compiled, an ignore-compile error only logs
(leaving `ire` nil, since `compilePattern` returns a nil matcher with
the error); an empty ignore source resets `ire` to nil.  `none` means
the program would panic inside `compilePattern`. -/
def loadRulePatterns (cwd matchSrc ignoreSrc : List Char) :
    Option (Option Regex × Option Regex) :=
  if matchSrc = [] then some (none, none)
  else
    match compilePattern cwd matchSrc with
    | none => none
    | some (Except.error _) => some (none, none)
    | some (Except.ok m) =>
      if ignoreSrc = [] then some (some m, none)
      else
        match compilePattern cwd ignoreSrc with
        | none => none
        | some (Except.error _) => some (some m, none)
        | some (Except.ok i) => some (some m, some i)

/-- `load` assembling a task value from one config entry (pattern fields
only; op-mask parsing is independent and not consulted here). -/
def loadTask (cwd matchSrc ignoreSrc : List Char) : Option GTask :=
  (loadRulePatterns cwd matchSrc ignoreSrc).map fun p =>
    ⟨matchSrc, ignoreSrc, p.1, p.2, 0⟩

/-! ## Watch-set computation (`(*Goemon).watch`, lines 208-230) -/

/-- One entry delivered by `filepath.Walk`, in walk order.  Entries with
a nil `FileInfo` are skipped by the callback and are simply omitted. -/
structure WEntry where
  path : List Char
  isDir : Bool
  deriving Repr, DecidableEq

/-- The walk callback (lines 212-230) acting on the set of watched
directories (the `dup` map and the watcher additions coincide):
directories are ignored; for a file whose parent is not yet in the set,
the parent is added when some task's `match` accepts the file path. -/
def walkAdd (tasks : List GTask) (acc : List (List Char)) (e : WEntry) :
    List (List Char) :=
  if e.isDir then acc
  else
    let dir := dirOf e.path
    if acc.contains dir then acc
    else if tasks.any (fun t => taskMatchF t e.path) then acc ++ [dir]
    else acc

/-- The whole walk (lines 208-230): the root is watched up front, then
every walked entry is offered to the callback. -/
def watchDirs (tasks : List GTask) (root : List Char) (entries : List WEntry) :
    List (List Char) :=
  entries.foldl (walkAdd tasks) [root]

/-- Follows the spec's words, for comparison with `walkAdd`: the
candidate file is tested against every Rule's match pattern alone,
ignoring the ignore pattern and the operation mask. -/
def walkAddSpec (tasks : List GTask) (acc : List (List Char)) (e : WEntry) :
    List (List Char) :=
  if e.isDir then acc
  else
    let dir := dirOf e.path
    if acc.contains dir then acc
    else if tasks.any (fun t =>
        match t.mre with
        | some r => rxMatch r e.path
        | none => false) then acc ++ [dir]
    else acc

/-- Follows the spec's words: the walk with the match-pattern-only test. -/
def watchDirsSpec (tasks : List GTask) (root : List Char) (entries : List WEntry) :
    List (List Char) :=
  entries.foldl (walkAddSpec tasks) [root]

/-! ## Command classification and the pipeline (lines 27, 171-191) -/

/-- State of the deterministic automaton for the argument tail
`(?:\s+(\S+))*$` of `commandRe`: at a group boundary (accepting), inside
the whitespace run (not accepting), or inside a word (accepting). -/
inductive ArgSt where
  | boundary
  | gap
  | word
  deriving Repr, DecidableEq

/-- The argument tail `(?:\s+(\S+))*$` of `commandRe` (line 27), as a
deterministic automaton — determinisation is exact because `\s` and `\S`
are complementary character classes. -/
def argsDFA : ArgSt → List Char → Bool
  | s, [] => s = ArgSt.boundary || s = ArgSt.word
  | .boundary, c :: r => if isSpaceRE2 c then argsDFA ArgSt.gap r else false
  | .gap, c :: r => argsDFA (if isSpaceRE2 c then ArgSt.gap else ArgSt.word) r
  | .word, c :: r => argsDFA (if isSpaceRE2 c then ArgSt.gap else ArgSt.word) r

/-- The argument tail accepted from its start. -/
def argsTailMatch (cs : List Char) : Bool :=
  argsDFA ArgSt.boundary cs

/-- Is the command string an internal command
(`commandRe.MatchString`)?  Leading whitespace, a `:`, one or more
lowercase letters, an optional `!`, then the argument tail. -/
def commandReMatch (cs : List Char) : Bool :=
  let rest := cs.dropWhile isSpaceRE2
  match rest with
  | ':' :: r =>
    let letters := r.takeWhile (fun c => 'a' ≤ c && c ≤ 'z')
    let r' := r.dropWhile (fun c => 'a' ≤ c && c ≤ 'z')
    let r'' := match r' with
      | '!' :: t => t
      | t => t
    !letters.isEmpty && argsTailMatch r''
  | _ => false

/-- Success of one command of a pipeline (lines 176-185): the command
string is classified by `commandRe`; an internal command's success is
reported by `internalCommand`, an external one's by `externalCommand`
(collaborators outside this file, abstracted as the oracles `eI`/`eE`). -/
def commandOk (eI eE : List Char → Bool) (c : List Char) : Bool :=
  if commandReMatch c then eI c else eE c

/-- The command loop (lines 174-186): commands run in list order; the
first failure breaks out of the loop.  The result is the list of
commands that actually ran. -/
def pipelineExec (eI eE : List Char → Bool) : List (List Char) → List (List Char)
  | [] => []
  | c :: rest =>
    if commandOk eI eE c then c :: pipelineExec eI eE rest else [c]

/-- One observable action of the pipeline goroutine. -/
inductive TAct where
  | incT
  | run (c : List Char)
  | clearT
  | decT
  deriving Repr, DecidableEq

/-- The pipeline goroutine (lines 171-191) as its action trace: the
task counter is incremented, the command loop runs, then — regardless of
the loop's outcome — the rule's `hit` flag is cleared and the counter is
decremented, in that order.  The goroutine returns nothing: no error is
propagated. -/
def taskGoroutine (eI eE : List Char → Bool) (cmds : List (List Char)) : List TAct :=
  TAct.incT :: (pipelineExec eI eE cmds).map TAct.run ++ [TAct.clearT, TAct.decT]

/-! ## The dispatcher / supervisor transition system

Lines 148-193 (`task`), 171-191 (the pipeline goroutine) and 354-380
(the supervised loop in `Run`) interleave through the shared `hit` flag
(per rule, mutex-protected), the atomic counter `tasks`, and the
supervisor's poll.  The state below tracks one rule — the flags of
distinct rules are independent, so a per-rule property loses nothing —
with the pipeline goroutines broken at every shared-memory access:
`dispatch` is the mutex-protected test-and-set of `hit` plus the `go`
statement (lines 163-169, 171); `inc` is the goroutine's counter
increment (line 172); the command loop runs (lines 174-186, bodies
tracked by their remaining command count); `clearHit` is the
mutex-protected reset (lines 187-189); `dec` is the counter decrement
(line 190).  `observe` is the supervisor reading the counter as zero
(line 360) and `restart` the terminate-and-spawn it then launches
(lines 364-367). -/

structure MState where
  hit : Bool
  tasks : Nat
  pre : Nat
  bodies : List Nat
  doneB : Nat
  postClear : Nat
  armed : Bool
  deriving Repr, DecidableEq

/-- Action labels of the transition system. -/
inductive MAct where
  | dispatch
  | drop
  | inc
  | cmdOk
  | cmdFail
  | bodyDone
  | clearHit
  | dec
  | observe
  | restart
  deriving Repr, DecidableEq

/-- The labelled step relation; `cmds0` is the length of the rule's
command list. -/
inductive MStep (cmds0 : Nat) : MState → MAct → MState → Prop where
  | dispatch (s : MState) : s.hit = false →
    MStep cmds0 s MAct.dispatch { s with hit := true, pre := s.pre + 1 }
  | drop (s : MState) : s.hit = true →
    MStep cmds0 s MAct.drop s
  | inc (s : MState) : 0 < s.pre →
    MStep cmds0 s MAct.inc
      { s with pre := s.pre - 1, bodies := cmds0 :: s.bodies, tasks := s.tasks + 1 }
  | cmdOk (s : MState) (n : Nat) (rest : List Nat) : s.bodies = (n + 1) :: rest →
    MStep cmds0 s MAct.cmdOk { s with bodies := n :: rest }
  | cmdFail (s : MState) (n : Nat) (rest : List Nat) : s.bodies = (n + 1) :: rest →
    MStep cmds0 s MAct.cmdFail { s with bodies := 0 :: rest }
  | bodyDone (s : MState) (rest : List Nat) : s.bodies = 0 :: rest →
    MStep cmds0 s MAct.bodyDone { s with bodies := rest, doneB := s.doneB + 1 }
  | clearHit (s : MState) : 0 < s.doneB →
    MStep cmds0 s MAct.clearHit
      { s with doneB := s.doneB - 1, hit := false, postClear := s.postClear + 1 }
  | dec (s : MState) : 0 < s.postClear →
    MStep cmds0 s MAct.dec
      { s with postClear := s.postClear - 1, tasks := s.tasks - 1 }
  | observe (s : MState) : s.tasks = 0 → s.armed = false →
    MStep cmds0 s MAct.observe { s with armed := true }
  | restart (s : MState) : s.armed = true →
    MStep cmds0 s MAct.restart { s with armed := false }

/-- The initial state: flag clear, counter zero, no goroutines, the
supervisor polling. -/
def mInit : MState :=
  { hit := false, tasks := 0, pre := 0, bodies := [], doneB := 0,
    postClear := 0, armed := false }

/-- Reachability from the initial state. -/
inductive MReach (cmds0 : Nat) : MState → Prop where
  | start : MReach cmds0 mInit
  | next {s a s'} : MReach cmds0 s → MStep cmds0 s a s' → MReach cmds0 s'

/-- A finite run labelled by its actions. -/
inductive MChain (cmds0 : Nat) : MState → List MAct → MState → Prop where
  | nil (s : MState) : MChain cmds0 s [] s
  | cons {s a s' acts s''} : MStep cmds0 s a s' → MChain cmds0 s' acts s'' →
    MChain cmds0 s (a :: acts) s''

/-- The structural invariant tying the shared state together: the `hit`
flag counts exactly the goroutines that have not yet cleared it, and the
task counter counts exactly the goroutines between their increment and
their decrement. -/
def MInv (s : MState) : Prop :=
  s.pre + s.bodies.length + s.doneB = (if s.hit then 1 else 0) ∧
  s.tasks = s.bodies.length + s.doneB + s.postClear

/-- A command that always fails, and commands used in witnesses. -/
def alwaysFalse : List Char → Bool := fun _ => false

/-- A task whose match and ignore patterns are both the raw regexp `%.`
(match anything): every path is accepted by the match matcher and also
by the ignore matcher, so the full `match` predicate rejects it. -/
def c5task : GTask :=
  ⟨"%.".toList, "%.".toList, some [⟨false, [Tok.anyChar], false⟩],
   some [⟨false, [Tok.anyChar], false⟩], 0⟩

/-- Is the result an error? -/
def exIsErr {α : Type} : Except String α → Bool
  | Except.error _ => true
  | _ => false

/-- Each step preserves the structural invariant. -/
theorem minv_step {cmds0 : Nat} {s : MState} {a : MAct} {s' : MState}
    (hinv : MInv s) (hstep : MStep cmds0 s a s') : MInv s' := by
  obtain ⟨hit, tasks, pre, bodies, doneB, postClear, armed⟩ := s
  obtain ⟨h1, h2⟩ := hinv
  simp only [MInv] at h1 h2 ⊢
  cases hstep with
  | dispatch hf =>
    simp only at hf
    subst hf
    simp only [Bool.false_eq_true, if_false, if_true] at h1 ⊢
    omega
  | drop ht => exact ⟨h1, h2⟩
  | inc hp =>
    simp only at hp
    cases hit <;>
      simp only [Bool.false_eq_true, if_false, if_true, List.length_cons] at h1 ⊢ <;>
      omega
  | cmdOk n rest hb =>
    simp only at hb
    subst hb
    cases hit <;>
      simp only [Bool.false_eq_true, if_false, if_true, List.length_cons] at h1 h2 ⊢ <;>
      omega
  | cmdFail n rest hb =>
    simp only at hb
    subst hb
    cases hit <;>
      simp only [Bool.false_eq_true, if_false, if_true, List.length_cons] at h1 h2 ⊢ <;>
      omega
  | bodyDone rest hb =>
    simp only at hb
    subst hb
    cases hit <;>
      simp only [Bool.false_eq_true, if_false, if_true, List.length_cons] at h1 h2 ⊢ <;>
      omega
  | clearHit hd =>
    simp only at hd
    cases hit <;>
      simp only [Bool.false_eq_true, if_false, if_true] at h1 ⊢ <;>
      omega
  | dec hp =>
    simp only at hp
    cases hit <;>
      simp only [Bool.false_eq_true, if_false, if_true] at h1 ⊢ <;>
      omega
  | observe hz ha => exact ⟨h1, h2⟩
  | restart ha => exact ⟨h1, h2⟩

/-- Every reachable state satisfies the structural invariant. -/
theorem minv_reach {cmds0 : Nat} {s : MState} (h : MReach cmds0 s) : MInv s := by
  induction h with
  | start => constructor <;> simp [mInit]
  | next _ hstep ih => exact minv_step ih hstep

/-- Claim C2 (confirmed): for every reachable state of the dispatcher,
at most one pipeline for the rule is live (spawned or executing or not
yet having cleared the flag); a matching event arriving while the flag
is set is dropped with no state change (not queued, no error); the flag
is set only by the guarded dispatch test-and-set that observed it false;
and it is cleared only by the single live pipeline, after its command
loop has completed (successfully or by break). -/
theorem single_flight_invariant (cmds0 : Nat) (s : MState)
    (h : MReach cmds0 s) :
    (s.pre + s.bodies.length + s.doneB ≤ 1) ∧
    (∀ s', MStep cmds0 s MAct.drop s' → s' = s) ∧
    (∀ a s', MStep cmds0 s a s' → s.hit = false → s'.hit = true → a = MAct.dispatch) ∧
    (∀ a s', MStep cmds0 s a s' → s.hit = true → s'.hit = false →
      a = MAct.clearHit ∧ 0 < s.doneB ∧ s.pre = 0 ∧ s.bodies = []) := by
  have hinv := minv_reach h
  obtain ⟨h1, h2⟩ := hinv
  refine ⟨?_, ?_, ?_, ?_⟩
  · cases hh : s.hit <;>
      simp only [hh, Bool.false_eq_true, if_false, if_true] at h1 <;> omega
  · intro s' hstep
    cases hstep
    rfl
  · intro a s' hstep hf ht
    cases hstep <;> simp_all
  · intro a s' hstep ht hf
    cases hstep <;> simp_all
    rename_i hd
    cases hh : s.bodies with
    | nil =>
      simp_all
      omega
    | cons b bs => simp [hh] at h1; omega

/-- An inc-free run of the system keeps a zero task counter at zero: no
step but the goroutine increment raises the counter, and the decrement
is enabled only when the counter is positive (by the invariant). -/
theorem tasks_zero_chain {cmds0 : Nat} {s : MState} {acts : List MAct}
    {s' : MState} (hch : MChain cmds0 s acts s') (hni : MAct.inc ∉ acts)
    (hz : s.tasks = 0) (hinv : MInv s) : s'.tasks = 0 := by
  induction hch with
  | nil => exact hz
  | cons hstep htail ih =>
    rename_i sa aa sa' actsa sa''
    have hni' : MAct.inc ∉ actsa := fun hm => hni (List.mem_cons_of_mem _ hm)
    have hinv' := minv_step hinv hstep
    apply ih hni'
    · obtain ⟨h1, h2⟩ := hinv
      cases hstep with
      | dispatch hf => simpa using hz
      | drop ht => exact hz
      | inc hp => exact absurd (List.mem_cons_self _ _) hni
      | cmdOk n rest hb => simpa using hz
      | cmdFail n rest hb => simpa using hz
      | bodyDone rest hb => simpa using hz
      | clearHit hd => simpa using hz
      | dec hp =>
        exfalso
        omega
      | observe hza ha => simpa using hz
      | restart ha => simpa using hz
    · exact hinv'

/-- Claim C1, counterexample: a reachable interleaving in which the
supervisor performs its restart step while the task counter is positive
and a command pipeline is mid-flight — the supervisor read the counter
as zero, then a dispatch and the goroutine's increment slipped in before
the restart (the read at line 360 and the spawn at line 364 are not
atomic). -/
theorem restart_overlaps_midflight_cx :
    ∃ s s' : MState, MReach 1 s ∧ MStep 1 s MAct.restart s' ∧
      0 < s.tasks ∧ 0 < s.bodies.length := by
  refine ⟨{ hit := true, tasks := 1, pre := 0, bodies := [1], doneB := 0,
            postClear := 0, armed := true },
          { hit := true, tasks := 1, pre := 0, bodies := [1], doneB := 0,
            postClear := 0, armed := false }, ?_, ?_, ?_, ?_⟩
  · have h1 : MStep 1 mInit MAct.observe { mInit with armed := true } :=
      MStep.observe mInit rfl rfl
    have h2 : MStep 1 { mInit with armed := true } MAct.dispatch
        { hit := true, tasks := 0, pre := 1, bodies := [], doneB := 0,
          postClear := 0, armed := true } :=
      MStep.dispatch { mInit with armed := true } rfl
    have h3 : MStep 1
        { hit := true, tasks := 0, pre := 1, bodies := [], doneB := 0,
          postClear := 0, armed := true } MAct.inc
        { hit := true, tasks := 1, pre := 0, bodies := [1], doneB := 0,
          postClear := 0, armed := true } :=
      MStep.inc _ Nat.one_pos
    exact MReach.next (MReach.next (MReach.next MReach.start h1) h2) h3
  · exact MStep.restart _ rfl
  · exact Nat.one_pos
  · simp

/-- Claim C1, amended: the supervisor arms a restart only upon reading
the task counter as zero, and the restart then still sees a zero counter
provided no pipeline increment occurs between the read and the restart;
the read and the restart are not atomic, so an intervening increment can
make the restart overlap a mid-flight pipeline. -/
theorem restart_gating_amended (cmds0 : Nat) (s0 s1 s2 s3 : MState)
    (acts : List MAct) (hr : MReach cmds0 s0)
    (hobs : MStep cmds0 s0 MAct.observe s1)
    (hch : MChain cmds0 s1 acts s2)
    (hni : MAct.inc ∉ acts)
    (hres : MStep cmds0 s2 MAct.restart s3) :
    s0.tasks = 0 ∧ s2.tasks = 0 ∧ s3.tasks = 0 := by
  have hinv0 : MInv s0 := minv_reach hr
  cases hobs with
  | observe hz ha =>
    have h2 : s2.tasks = 0 := by
      apply tasks_zero_chain hch hni
      · simpa using hz
      · exact minv_step hinv0 (@MStep.observe cmds0 s0 hz ha)
    refine ⟨hz, h2, ?_⟩
    cases hres with
    | restart ha2 => simpa using h2

/-- Witness for the amended C1 theorem at a concrete run: observe from
the initial state, an empty intermediate run, then restart. -/
theorem restart_gating_amended_witness :
    mInit.tasks = 0 ∧
    ({ mInit with armed := true } : MState).tasks = 0 ∧
    ({ mInit with armed := false } : MState).tasks = 0 :=
  restart_gating_amended 1 mInit { mInit with armed := true }
    { mInit with armed := true } { mInit with armed := false } []
    MReach.start (MStep.observe mInit rfl rfl) (MChain.nil _)
    (by simp) (MStep.restart _ rfl)

/-- Witness for the single-flight theorem at a concrete reachable state
(the initial state, rule with two commands). -/
theorem single_flight_invariant_witness :
    (mInit.pre + mInit.bodies.length + mInit.doneB ≤ 1) ∧
    (∀ s', MStep 2 mInit MAct.drop s' → s' = mInit) ∧
    (∀ a s', MStep 2 mInit a s' → mInit.hit = false → s'.hit = true →
      a = MAct.dispatch) ∧
    (∀ a s', MStep 2 mInit a s' → mInit.hit = true → s'.hit = false →
      a = MAct.clearHit ∧ 0 < mInit.doneB ∧ mInit.pre = 0 ∧ mInit.bodies = []) :=
  single_flight_invariant 2 mInit MReach.start

/-- Claim C3, counterexample: `matchOp` with mask exactly Write returns
false — not true, as claimed — for an event carrying Write and Chmod,
because the code requires every bit of the event to lie inside the mask
(`uint32(op)&t.mops == uint32(op)`), and Chmod does not. -/
theorem matchOp_superset_event_cx :
    matchOp fsWrite (fsWrite ||| fsChmod) = false := by decide

/-- Claim C3, amended: for a non-empty mask, `matchOp` is true exactly
when every operation bit of the event lies inside the mask (so it is
also true for an event with no bits); an empty mask matches every
event.  In particular mask Write rejects an event carrying Write and
Chmod. -/
theorem matchOp_subset_semantics (mops op : Nat) :
    matchOp mops op = true ↔
      (mops = 0 ∨ ∀ i, op.testBit i = true → mops.testBit i = true) := by
  unfold matchOp
  by_cases h : mops = 0
  · simp [h]
  · simp only [h, if_false, decide_eq_true_eq, false_or]
    constructor
    · intro hand i hbit
      have := congrArg (fun n => Nat.testBit n i) hand
      simpa [Nat.testBit_land, hbit] using this
    · intro hsub
      apply Nat.eq_of_testBit_eq
      intro i
      rw [Nat.testBit_land]
      cases hb : op.testBit i
      · simp
      · simp [hsub i hb]


/-- Claim C6 (confirmed): commands run strictly in list order and the
first failing command ends the pipeline — the goroutine trace is exactly
the increment, the successful prefix plus the failing command, then the
flag clear and the counter decrement, in that order; and for every
command list and any outcomes, the trace still ends with the clear
followed by the decrement, with no error output at all. -/
theorem pipeline_short_circuit_bookkeeping :
    (∀ (eI eE : List Char → Bool) (pre : List (List Char)) (c : List Char)
        (post : List (List Char)),
      (∀ x ∈ pre, commandOk eI eE x = true) → commandOk eI eE c = false →
      taskGoroutine eI eE (pre ++ c :: post) =
        TAct.incT :: ((pre ++ [c]).map TAct.run) ++ [TAct.clearT, TAct.decT]) ∧
    (∀ (eI eE : List Char → Bool) (cmds : List (List Char)),
      ∃ ran : List (List Char),
        taskGoroutine eI eE cmds =
          TAct.incT :: (ran.map TAct.run) ++ [TAct.clearT, TAct.decT]) := by
  constructor
  · intro eI eE pre c post hpre hc
    have hpe : ∀ pre2 : List (List Char), (∀ x ∈ pre2, commandOk eI eE x = true) →
        pipelineExec eI eE (pre2 ++ c :: post) = pre2 ++ [c] := by
      intro pre2
      induction pre2 with
      | nil =>
        intro _
        simp [pipelineExec, hc]
      | cons p ps ih =>
        intro hpre2
        have hp : commandOk eI eE p = true := hpre2 p (List.mem_cons_self _ _)
        simp only [List.cons_append, pipelineExec, hp, if_true, List.append_eq]
        rw [ih (fun x hx => hpre2 x (List.mem_cons_of_mem _ hx))]
    unfold taskGoroutine
    rw [hpe pre hpre]
  · intro eI eE cmds
    exact ⟨pipelineExec eI eE cmds, rfl⟩

/-- Witness for the pipeline theorem: a two-command rule whose first
command fails (both executors reject everything) runs only that first
command and still clears the flag and decrements the counter. -/
theorem pipeline_short_circuit_bookkeeping_witness :
    taskGoroutine alwaysFalse alwaysFalse ([] ++ "a".toList :: ["b".toList]) =
      TAct.incT :: (([] ++ ["a".toList]).map TAct.run) ++
        [TAct.clearT, TAct.decT] :=
  pipeline_short_circuit_bookkeeping.1 alwaysFalse alwaysFalse []
    "a".toList ["b".toList] (by simp)
    (by simp [commandOk, alwaysFalse])

/-- Claim C9, counterexample: on the empty source string `compilePattern`
does not return a matcher or an error — the very first operation,
`pattern[0]`, is an out-of-bounds read (a run-time panic), modelled as
`none`. -/
theorem compile_empty_panics_cx :
    compilePattern "/w".toList "".toList = none := rfl

/-- Claim C9, amended: for every non-empty source string,
`compilePattern` terminates normally with either a matcher or an error
value; the empty string is the one input on which it instead reads out
of bounds. -/
theorem compile_total_nonempty (cwd pat : List Char) (h : pat ≠ []) :
    (compilePattern cwd pat).isSome = true := by
  unfold compilePattern
  split
  · simp_all
  · split <;> simp

/-- Witness for the amended C9 theorem: the one-character pattern `a`. -/
theorem compile_total_nonempty_witness :
    ("a".toList ≠ ([] : List Char)) ∧
      (compilePattern "/w".toList "a".toList).isSome = true :=
  ⟨by decide, compile_total_nonempty "/w".toList "a".toList (by decide)⟩

/-- Claim C7 (confirmed): with working directory `/w`, the matcher
compiled from `src/**/*.go` accepts `/w/src/a/b.go` and
`/w/src/a/b/c.go`, and also `/w/src/a.go`: the translated `**/`
(`.*`) matches zero or more whole segments and the translated `*`
(`[^/]+`) matches one or more non-separator characters. -/
theorem glob_zero_segment_accepts :
    acceptsVia "/w".toList "src/**/*.go".toList "/w/src/a/b.go".toList = true ∧
    acceptsVia "/w".toList "src/**/*.go".toList "/w/src/a/b/c.go".toList = true ∧
    acceptsVia "/w".toList "src/**/*.go".toList "/w/src/a.go".toList = true := by
  refine ⟨?_, ?_, ?_⟩ <;> decide

/-- A token list of plain literals matches exactly the corresponding
character list. -/
theorem toksMatch_lits (L cs : List Char) :
    toksMatch (L.map Tok.lit) cs = true ↔ cs = L := by
  induction L generalizing cs with
  | nil => cases cs <;> simp [toksMatch, nullableToks, derivToks]
  | cons a L ih =>
    cases cs with
    | nil => simp [toksMatch, nullableToks]
    | cons c cs' =>
      simp only [List.map_cons, toksMatch, derivToks]
      by_cases hca : c = a
      · subst hca
        simp [ih]
      · simp [hca]

/-- Suffix search with a pure-literal token list finds exactly the
suffixes equal to the literal list. -/
theorem tails_any_toksMatch_lits (L s : List Char) :
    (s.tails.any (toksMatch (L.map Tok.lit))) = true ↔ L <:+ s := by
  rw [List.any_eq_true]
  constructor
  · rintro ⟨t, ht, hm⟩
    rw [toksMatch_lits] at hm
    subst hm
    exact (List.mem_tails _ _).mp ht
  · intro hsuf
    exact ⟨L, (List.mem_tails _ _).mpr hsuf, (toksMatch_lits L L).mpr rfl⟩

/-- Claim C4, counterexample: the matcher compiled from `a|b` (working
directory `/w`, resolved alternatives `/w/a` and `/w/b`) accepts
`/x/w/b`, a path that is equal to neither alternative and merely has an
alternative as a suffix — because the generated source is
`^…a$$|…b$`, leaving every alternative after the first without a start
anchor. -/
theorem alternation_suffix_cx :
    acceptsVia "/w".toList "a|b".toList "/x/w/b".toList = true ∧
    filepathAbs "/w".toList "a".toList = "/w/a".toList ∧
    filepathAbs "/w".toList "b".toList = "/w/b".toList ∧
    "/x/w/b".toList ≠ "/w/a".toList ∧ "/x/w/b".toList ≠ "/w/b".toList := by
  refine ⟨by decide, by decide, by decide, by decide, by decide⟩

/-- Claim C4, amended: for `a|b` the first alternative is anchored at
both ends, but each later alternative is anchored only at the end: the
compiled matcher accepts a path exactly when it equals the resolved
first alternative or has the resolved second alternative as a suffix. -/
theorem alternation_anchoring_amended (s : List Char) :
    acceptsVia "/w".toList "a|b".toList s = true ↔
      (s = "/w/a".toList ∨ "/w/b".toList <:+ s) := by
  have hc : compilePattern "/w".toList "a|b".toList =
      some (Except.ok
        [⟨true, ("/w/a".toList).map Tok.lit, true⟩,
         ⟨false, ("/w/b".toList).map Tok.lit, true⟩]) := rfl
  unfold acceptsVia
  rw [hc]
  simp only [rxMatch, List.any_cons, List.any_nil, Bool.or_false, altMatch,
    Bool.or_eq_true]
  rw [toksMatch_lits, tails_any_toksMatch_lits]


/-- Membership in the watch-set fold: a directory is watched iff it was
already watched or some walked file's parent is that directory and some
task's full `match` predicate accepts the file. -/
theorem watchDirs_fold_mem (tasks : List GTask) (acc : List (List Char))
    (entries : List WEntry) (d : List Char) :
    d ∈ entries.foldl (walkAdd tasks) acc ↔
      (d ∈ acc ∨ ∃ e ∈ entries, e.isDir = false ∧ dirOf e.path = d ∧
        tasks.any (fun t => taskMatchF t e.path) = true) := by
  induction entries generalizing acc with
  | nil => simp
  | cons e es ih =>
    simp only [List.foldl_cons, ih, List.mem_cons]
    unfold walkAdd
    by_cases hdir : e.isDir = true
    · simp [hdir]
    · simp only [Bool.not_eq_true] at hdir
      rw [hdir]
      simp only [Bool.false_eq_true, if_false]
      by_cases hcont : acc.contains (dirOf e.path) = true
      · have hmem : dirOf e.path ∈ acc := by
          simpa [List.contains] using List.elem_iff.mp hcont
        rw [if_pos hcont]
        constructor
        · rintro (h | ⟨e2, he2, h1, h2, h3⟩)
          · exact Or.inl h
          · exact Or.inr ⟨e2, Or.inr he2, h1, h2, h3⟩
        · rintro (h | ⟨e2, he2, h1, h2, h3⟩)
          · exact Or.inl h
          · rcases he2 with he2 | he2
            · subst he2
              exact Or.inl (h2 ▸ hmem)
            · exact Or.inr ⟨e2, he2, h1, h2, h3⟩
      · rw [if_neg hcont]
        by_cases hany : tasks.any (fun t => taskMatchF t e.path) = true
        · rw [if_pos hany]
          constructor
          · rintro (h | ⟨e2, he2, h1, h2, h3⟩)
            · rcases List.mem_append.mp h with h2 | h2
              · exact Or.inl h2
              · have hd : d = dirOf e.path := by simpa using h2
                exact Or.inr ⟨e, Or.inl rfl, hdir, hd.symm, hany⟩
            · exact Or.inr ⟨e2, Or.inr he2, h1, h2, h3⟩
          · rintro (h | ⟨e2, he2, h1, h2, h3⟩)
            · exact Or.inl (List.mem_append.mpr (Or.inl h))
            · rcases he2 with he2 | he2
              · subst he2
                refine Or.inl (List.mem_append.mpr (Or.inr ?_))
                simp [h2.symm]
              · exact Or.inr ⟨e2, he2, h1, h2, h3⟩
        · rw [if_neg hany]
          constructor
          · rintro (h | ⟨e2, he2, h1, h2, h3⟩)
            · exact Or.inl h
            · exact Or.inr ⟨e2, Or.inr he2, h1, h2, h3⟩
          · rintro (h | ⟨e2, he2, h1, h2, h3⟩)
            · exact Or.inl h
            · rcases he2 with he2 | he2
              · subst he2
                exact absurd h3 hany
              · exact Or.inr ⟨e2, he2, h1, h2, h3⟩

/-- Claim C5, counterexample: the walk calls the full `match` predicate,
which does consult the ignore pattern.  For a rule loaded from match
`%.` and ignore `%.`, the match pattern alone accepts `/w/d/f`, yet the
walk does not watch `/w/d`; the spec-worded walk (match pattern only)
would watch it. -/
theorem watch_ignore_consulted_cx :
    loadTask "/w".toList "%.".toList "%.".toList = some c5task ∧
    (match c5task.mre with
     | some r => rxMatch r "/w/d/f".toList
     | none => false) = true ∧
    watchDirs [c5task] "/w".toList [⟨"/w/d/f".toList, false⟩] = ["/w".toList] ∧
    watchDirsSpec [c5task] "/w".toList [⟨"/w/d/f".toList, false⟩] =
      ["/w".toList, "/w/d".toList] := by
  refine ⟨rfl, by decide, by decide, by decide⟩

/-- Claim C5, amended: during the walk, every regular file whose parent
is not yet watched is tested against each Rule's full `match` predicate
— the match pattern and the ignore pattern together (the operation mask
is not consulted) — and the parent directory is watched exactly when it
is the root or some Rule's full `match` accepts some file in it. -/
theorem watch_set_membership_amended (tasks : List GTask) (root : List Char)
    (entries : List WEntry) (d : List Char) :
    d ∈ watchDirs tasks root entries ↔
      (d = root ∨ ∃ e ∈ entries, e.isDir = false ∧ dirOf e.path = d ∧
        tasks.any (fun t => taskMatchF t e.path) = true) := by
  unfold watchDirs
  rw [watchDirs_fold_mem]
  simp

/-- Claim C10 (confirmed): if the match pattern compiles and the ignore
pattern fails to compile, the rule is loaded with the compiled match
matcher and a nil ignore matcher — it stays fully active with no ignore
filtering, its `match` reducing to the match matcher alone; whereas a
match-pattern compile failure leaves the rule inert (`match` false on
every path). -/
theorem ignore_failure_keeps_rule_active :
    (∀ (cwd mSrc iSrc : List Char) (m : Regex), mSrc ≠ [] →
      compilePattern cwd mSrc = some (Except.ok m) →
      isErrO (compilePattern cwd iSrc) = true →
      loadRulePatterns cwd mSrc iSrc = some (some m, none) ∧
      ∀ p, taskMatchF ⟨mSrc, iSrc, some m, none, 0⟩ p = rxMatch m p) ∧
    (∀ (cwd mSrc iSrc : List Char), mSrc ≠ [] →
      isErrO (compilePattern cwd mSrc) = true →
      loadRulePatterns cwd mSrc iSrc = some (none, none) ∧
      ∀ p, taskMatchF ⟨mSrc, iSrc, none, none, 0⟩ p = false) := by
  constructor
  · intro cwd mSrc iSrc m hm hcm hci
    have hi : iSrc ≠ [] := by
      intro h
      subst h
      simp [compilePattern, isErrO] at hci
    refine ⟨?_, ?_⟩
    · unfold loadRulePatterns
      rw [if_neg hm]
      rw [hcm]
      dsimp only
      rw [if_neg hi]
      cases hx : compilePattern cwd iSrc with
      | none => rw [hx] at hci; simp [isErrO] at hci
      | some v =>
        cases v with
        | ok r => rw [hx] at hci; simp [isErrO] at hci
        | error e => rfl
    · intro p
      simp [taskMatchF]
  · intro cwd mSrc iSrc hm hcm
    refine ⟨?_, ?_⟩
    · unfold loadRulePatterns
      rw [if_neg hm]
      cases hx : compilePattern cwd mSrc with
      | none => rw [hx] at hcm; simp [isErrO] at hcm
      | some v =>
        cases v with
        | ok r => rw [hx] at hcm; simp [isErrO] at hcm
        | error e => rfl
    · intro p
      simp [taskMatchF]

/-- Witness for C10: match `x` compiles, ignore `a**` is an invalid
wildcard; the loaded rule keeps the match matcher, drops the ignore
matcher, and matches exactly what the match matcher accepts. -/
theorem ignore_failure_keeps_rule_active_witness :
    loadRulePatterns "/w".toList "x".toList "a**".toList =
      some (some [⟨true, ("/w/x".toList).map Tok.lit, true⟩], none) ∧
    ∀ p, taskMatchF ⟨"x".toList, "a**".toList,
        some [⟨true, ("/w/x".toList).map Tok.lit, true⟩], none, 0⟩ p =
      rxMatch [⟨true, ("/w/x".toList).map Tok.lit, true⟩] p :=
  ignore_failure_keeps_rule_active.1 "/w".toList "x".toList "a**".toList
    [⟨true, ("/w/x".toList).map Tok.lit, true⟩] (by decide) rfl rfl


/-- Mapping preserves the error status. -/
theorem exIsErr_map {α β : Type} (f : α → β) (x : Except String α) :
    exIsErr (x.map f) = exIsErr x := by
  cases x <;> rfl

/-- A malformed `**` in front of a character other than `*` steps over
the head character. -/
theorem hasBadSS_cons_of_ne (c : Char) (cs : List Char) (hc : c ≠ '*') :
    hasBadSS (c :: cs) = hasBadSS cs := by
  cases cs with
  | nil => simp [hasBadSS]
  | cons c2 r2 => simp [hasBadSS, hc]

/-- A well-formed `**/` contributes no malformed `**`. -/
theorem hasBadSS_ssSlash (rest : List Char) :
    hasBadSS ('*' :: '*' :: '/' :: rest) = hasBadSS rest := by
  cases rest with
  | nil => simp [hasBadSS]
  | cons c2 r2 => simp [hasBadSS]

/-- A single `*` (not followed by `*`) steps over. -/
theorem hasBadSS_star (rest : List Char) (hr : ∀ tail, rest ≠ '*' :: tail) :
    hasBadSS ('*' :: rest) = hasBadSS rest := by
  cases rest with
  | nil => simp [hasBadSS]
  | cons c2 r2 =>
    have hc2 : c2 ≠ '*' := fun hc => hr r2 (by rw [hc])
    simp [hasBadSS, hc2]

/-- The rune loop rejects every alternative that contains a `**` not
followed by `/`: whichever way the scan walks into the two stars, the
follower check fails. -/
theorem globBody_bad : ∀ cs : List Char, hasBadSS cs = true →
    exIsErr (globBody cs) = true := by
  intro cs
  induction cs using globBody.induct with
  | case1 =>
    intro h
    simp [hasBadSS] at h
  | case2 rest ih =>
    intro h
    rw [hasBadSS_cons_of_ne '/' rest (by decide)] at h
    have he : globBody ('/' :: rest) = (globBody rest).map (fun r => '/' :: r) := by
      conv_lhs => rw [globBody.eq_def]
      simp
    rw [he, exIsErr_map]
    exact ih h
  | case3 rest3 hns ih =>
    intro h
    rw [hasBadSS_ssSlash] at h
    simpa [globBody, exIsErr_map] using ih h
  | case4 rest2 hne hns =>
    intro _
    simp [globBody, exIsErr]
  | case5 r hr hns ih =>
    intro h
    rw [hasBadSS_star r (fun tail hq => hr tail hq)] at h
    simpa [globBody, exIsErr_map] using ih h
  | case6 rest hns hnstar ih =>
    intro h
    rw [hasBadSS_cons_of_ne '?' rest (by decide)] at h
    have he : globBody ('?' :: rest) =
        (globBody rest).map (fun r => '\\' :: 'S' :: r) := by
      conv_lhs => rw [globBody.eq_def]
      simp
    rw [he, exIsErr_map]
    exact ih h
  | case7 c rest hc1 hc2 hc3 ih =>
    intro h
    rw [hasBadSS_cons_of_ne c rest hc2] at h
    have he : globBody (c :: rest) =
        (globBody rest).map
          (fun r => '[' :: '\\' :: 'x' :: toHex c.toNat ++ ']' :: r) := by
      conv_lhs => rw [globBody.eq_def]
      simp only
      rw [if_neg hc1, if_neg hc2, if_neg hc3]
    rw [he, exIsErr_map]
    exact ih h

/-- If some alternative's resolved form is rejected by the rune loop,
the whole alternatives loop returns that error. -/
theorem buildAlts_err (cwd : List Char) (alt : List Char) :
    ∀ (alts : List (List Char)) (n : Nat), alt ∈ alts →
    exIsErr (globBody (filepathAbs cwd alt)) = true →
    exIsErr (buildAlts cwd n alts) = true := by
  intro alts
  induction alts with
  | nil =>
    intro n hmem
    exact absurd hmem (List.not_mem_nil _)
  | cons a as ih =>
    intro n hmem hbad
    rcases List.mem_cons.mp hmem with heq | hmem2
    · subst heq
      cases hx : globBody (filepathAbs cwd alt) with
      | error e => simp [buildAlts, Bind.bind, Except.bind, hx, exIsErr]
      | ok body => rw [hx] at hbad; simp [exIsErr] at hbad
    · cases hx : globBody (filepathAbs cwd a) with
      | error e => simp [buildAlts, Bind.bind, Except.bind, hx, exIsErr]
      | ok body =>
        have ht := ih (n + 1) hmem2 hbad
        cases hy : buildAlts cwd (n + 1) as with
        | error e => simp [buildAlts, Bind.bind, Except.bind, hx, hy, exIsErr]
        | ok tail => rw [hy] at ht; simp [exIsErr] at ht

/-- Claim C8, counterexample: the source `**x/..` contains a `**` not
followed by `/`, yet it compiles to a matcher — absolute-path resolution
(`filepath.Abs` runs `Clean`) removes the `**x` segment together with
the following `..` before the rune loop ever sees it.  Conversely the
bare source `**/` fails to compile: resolution strips its trailing
slash, leaving a trailing `**`. -/
theorem wildcard_clean_escape_cx :
    hasBadSS "**x/..".toList = true ∧
    isOkO (compilePattern "/w".toList "**x/..".toList) = true ∧
    isErrO (compilePattern "/w".toList "**/".toList) = true := by
  refine ⟨by decide, by decide, by decide⟩

/-- Claim C8, amended: for every glob source (non-empty, not starting
with the raw-regexp sentinel) in which some `|`-separated alternative
still contains a `**` not immediately followed by `/` after
absolute-path resolution, `compilePattern` returns a compilation error
and no matcher; a resolved `**/` followed by more pattern compiles. -/
theorem wildcard_rejection_amended :
    (∀ cwd pat : List Char, pat ≠ [] → pat.head? ≠ some '%' →
      (∃ alt ∈ splitOnChar '|' pat, hasBadSS (filepathAbs cwd alt) = true) →
      isErrO (compilePattern cwd pat) = true) ∧
    isOkO (compilePattern "/w".toList "**/x".toList) = true := by
  constructor
  · rintro cwd pat hne hpc ⟨alt, hmem, hbad⟩
    cases pat with
    | nil => exact absurd rfl hne
    | cons c rest =>
      have hc : c ≠ '%' := by
        intro h
        subst h
        simp at hpc
      have herr : exIsErr (buildAlts cwd 0 (splitOnChar '|' (c :: rest))) = true :=
        buildAlts_err cwd alt _ 0 hmem (globBody_bad _ hbad)
      simp only [compilePattern]
      rw [if_neg hc]
      cases hb : buildAlts cwd 0 (splitOnChar '|' (c :: rest)) with
      | error e => simp [isErrO, hb]
      | ok src => rw [hb] at herr; simp [exIsErr] at herr
  · decide

/-- Witness for the amended C8 theorem: the pattern `a**` (resolved to
`/w/a**`) still carries its malformed `**` after resolution and is
rejected. -/
theorem wildcard_rejection_amended_witness :
    isErrO (compilePattern "/w".toList "a**".toList) = true :=
  wildcard_rejection_amended.1 "/w".toList "a**".toList (by decide) (by decide)
    ⟨"a**".toList, by decide, by decide⟩
